import Mathlib

/-
Verification development for the group-membership reconciliation scripts.

The repository contains three variants of the same pipeline:
  - IK_Test/Critical_group_report.py            (the critical variant)
  - Groups_test/get_test_with_sort.py           (the sort variant)
  - get_test_with_updates_test.py               (the updates variant)

Pure Python functions are embedded as Lean functions.  Python dicts are
modelled as association lists with first-binding-wins lookup and
replace-in-place assignment, Python strings as lists of Unicode code
points, and the external Unicode NFC composition (unicodedata.normalize)
as an explicit function parameter, since it is library code outside the
repository.  Fallible file reads are modelled with an explicit artifact
state and an Except result.
-/

set_option linter.unusedVariables false

namespace GroupsAudit

/-- A Python string, modelled as its list of Unicode code points. -/
abbrev Str := List Char

/-- Python dict lookup d.get(k): the first binding for k, if any. -/
def dictGet {γ β : Type} [DecidableEq γ] (g : γ) : List (γ × β) → Option β
  | [] => none
  | kv :: rest => if g = kv.1 then some kv.2 else dictGet g rest

/-- Python dict assignment d[k] = v: replaces an existing binding in place,
otherwise appends a new binding at the end. -/
def dictInsert {γ β : Type} [DecidableEq γ] (k : γ) (v : β) : List (γ × β) → List (γ × β)
  | [] => [(k, v)]
  | kv :: rest => if kv.1 = k then (k, v) :: rest else kv :: dictInsert k v rest

/-- The keys of a Python dict, in binding order. -/
def dictKeys {γ β : Type} (d : List (γ × β)) : List γ := d.map Prod.fst

/-- Python sorted(l): the elements of l in non-decreasing order. -/
def pySorted {μ : Type} [LinearOrder μ] (l : List μ) : List μ :=
  l.insertionSort (· ≤ ·)

/-- Python sorted(set(l)): the distinct elements of l in increasing order. -/
def pySortedSet {μ : Type} [LinearOrder μ] (l : List μ) : List μ :=
  pySorted l.dedup

/-- Python set(a) - set(b), as a duplicate-free list. -/
def pySetDiff {μ : Type} [DecidableEq μ] (a b : List μ) : List μ :=
  (a.filter fun x => decide (x ∉ b)).dedup

/-- Python set(a) & set(b), as a duplicate-free list. -/
def pySetInter {μ : Type} [DecidableEq μ] (a b : List μ) : List μ :=
  (a.filter fun x => decide (x ∈ b)).dedup

/-- Python current.get(group, []) on a roster dict. -/
def getMembers {γ μ : Type} [DecidableEq γ] (g : γ) (d : List (γ × List μ)) : List μ :=
  (dictGet g d).getD []

/-- all_keys = set(current.keys()).union(previous.keys()), enumerated with the
current-roster keys first.  Python set iteration order is unspecified; every
claim below is order-independent, so one enumeration order is fixed here. -/
def allSnapshotKeys {γ μ : Type} [DecidableEq γ] (current previous : List (γ × List μ)) :
    List γ :=
  (dictKeys current ++ dictKeys previous).dedup

/-- The added / removed / unchanged member lists reported for one group. -/
structure GroupDelta (μ : Type) where
  added : List μ
  removed : List μ
  unchanged : List μ
deriving DecidableEq

/-- compare_snapshots from Groups_test/get_test_with_sort.py (lines 89-108):
a uniform set-difference delta for every key of either roster, and
changes_detected accumulated from nonempty added or removed lists only. -/
def compareSnapshotsSort {γ μ : Type} [DecidableEq γ] [LinearOrder μ]
    (current previous : List (γ × List μ)) : List (γ × GroupDelta μ) × Bool :=
  let allKeys := allSnapshotKeys current previous
  (allKeys.map fun g =>
      (g, { added := pySorted (pySetDiff (getMembers g current) (getMembers g previous))
            removed := pySorted (pySetDiff (getMembers g previous) (getMembers g current))
            unchanged := pySorted (pySetInter (getMembers g current) (getMembers g previous)) }),
   allKeys.any fun g =>
      !(pySetDiff (getMembers g current) (getMembers g previous)).isEmpty ||
      !(pySetDiff (getMembers g previous) (getMembers g current)).isEmpty)

/-- The per-group branch of compare_snapshots from
IK_Test/Critical_group_report.py (lines 177-221): a newly observed group
reports the raw current member list sorted, a disappeared group reports the
raw previous member list sorted, and a group present on both sides reports
the set differences and the intersection, each sorted. -/
def critDelta {γ μ : Type} [DecidableEq γ] [LinearOrder μ]
    (current previous : List (γ × List μ)) (g : γ) : GroupDelta μ :=
  if dictGet g previous = none then
    { added := pySorted (getMembers g current), removed := [], unchanged := [] }
  else if dictGet g current = none then
    { added := [], removed := pySorted (getMembers g previous), unchanged := [] }
  else
    { added := pySorted (pySetDiff (getMembers g current) (getMembers g previous))
      removed := pySorted (pySetDiff (getMembers g previous) (getMembers g current))
      unchanged := pySorted (pySetInter (getMembers g current) (getMembers g previous)) }

/-- The four values returned by the critical-variant compare_snapshots. -/
structure CritResult (γ μ : Type) where
  result : List (γ × GroupDelta μ)
  changesDetected : Bool
  addedGroups : List γ
  deletedGroups : List γ
deriving DecidableEq

/-- compare_snapshots from IK_Test/Critical_group_report.py (lines 177-221).
changes_detected is set in the newly-observed and disappeared branches
unconditionally and in the both-sides branch when added or removed is
nonempty; added_groups and deleted_groups record those branch hits. -/
def compareSnapshotsCrit {γ μ : Type} [DecidableEq γ] [LinearOrder μ]
    (current previous : List (γ × List μ)) : CritResult γ μ :=
  let allKeys := allSnapshotKeys current previous
  { result := allKeys.map fun g => (g, critDelta current previous g)
    changesDetected := allKeys.any fun g =>
      (dictGet g previous).isNone || (dictGet g current).isNone ||
      !(pySetDiff (getMembers g current) (getMembers g previous)).isEmpty ||
      !(pySetDiff (getMembers g previous) (getMembers g current)).isEmpty
    addedGroups := allKeys.filter fun g => (dictGet g previous).isNone
    deletedGroups := allKeys.filter fun g =>
      !(dictGet g previous).isNone && (dictGet g current).isNone }

/-- The per-group record built by generate_snapshot in
get_test_with_updates_test.py, which also reports len(cur). -/
structure GroupDeltaT (μ : Type) where
  added : List μ
  removed : List μ
  unchanged : List μ
  totalMembers : Nat
deriving DecidableEq

/-- generate_snapshot from get_test_with_updates_test.py (lines 171-195):
the same uniform delta as the sort variant plus a total_members count, with
changes_detected again accumulated from nonempty added or removed only. -/
def generateSnapshot {γ μ : Type} [DecidableEq γ] [LinearOrder μ]
    (current previous : List (γ × List μ)) : List (γ × GroupDeltaT μ) × Bool :=
  let allKeys := allSnapshotKeys current previous
  (allKeys.map fun g =>
      (g, { added := pySorted (pySetDiff (getMembers g current) (getMembers g previous))
            removed := pySorted (pySetDiff (getMembers g previous) (getMembers g current))
            unchanged := pySorted (pySetInter (getMembers g current) (getMembers g previous))
            totalMembers := (getMembers g current).dedup.length }),
   allKeys.any fun g =>
      !(pySetDiff (getMembers g current) (getMembers g previous)).isEmpty ||
      !(pySetDiff (getMembers g previous) (getMembers g current)).isEmpty)

/-- The code points for which Python str.isspace() is true; these are the
characters removed from both ends by str.strip() with no argument. -/
def isPyWhitespace (c : Char) : Bool :=
  c.toNat = 0x09 || c.toNat = 0x0A || c.toNat = 0x0B || c.toNat = 0x0C || c.toNat = 0x0D ||
  c.toNat = 0x1C || c.toNat = 0x1D || c.toNat = 0x1E || c.toNat = 0x1F || c.toNat = 0x20 ||
  c.toNat = 0x85 || c.toNat = 0xA0 || c.toNat = 0x1680 ||
  (0x2000 ≤ c.toNat && c.toNat ≤ 0x200A) ||
  c.toNat = 0x2028 || c.toNat = 0x2029 || c.toNat = 0x202F || c.toNat = 0x205F ||
  c.toNat = 0x3000

/-- The Unicode byte order mark U+FEFF. -/
def bomChar : Char := '\uFEFF'

/-- Python s.lstrip of the byte order mark: removes every leading U+FEFF. -/
def lstripBOM (s : Str) : Str := s.dropWhile fun c => decide (c = bomChar)

/-- Python s.strip(): removes leading and trailing whitespace. -/
def pyStrip (s : Str) : Str := (s.dropWhile isPyWhitespace).rdropWhile isPyWhitespace

/-- clean_text from IK_Test/Critical_group_report.py (lines 34-38).  The call
unicodedata.normalize NFC is Python library code outside the repository, so
the NFC transformation is taken as an explicit parameter nfc; every theorem
about clean_text is stated for a class of nfc functions that includes the
real NFC map (witnesses use the identity, which agrees with NFC on the
NFC-inert code points appearing in concrete inputs). -/
def cleanText (nfc : Str → Str) (s : Str) : Str :=
  if s = [] then [] else nfc (pyStrip (lstripBOM s))

/-- clean_text applied to an optional value: clean_text(None) takes the
falsy branch of the Python code and returns the empty string. -/
def cleanTextOpt (nfc : Str → Str) : Option Str → Str
  | none => []
  | some s => cleanText nfc s

/-- normalize_snapshot_keys from IK_Test/Critical_group_report.py
(lines 40-46): every group name is cleaned and every member list is rebuilt
as the sorted set of its cleaned members. -/
def normalizeSnapshotKeys (nfc : Str → Str) (snap : List (Str × List Str)) :
    List (Str × List Str) :=
  snap.foldl
    (fun fixed kv =>
      dictInsert (cleanText nfc kv.1) (pySortedSet (kv.2.map (cleanText nfc))) fixed)
    []

/-- The observable state of the persisted snapshot artifact: the file may be
missing, it may exist but fail to open or parse (unreadable or corrupt
JSON), or it may hold a parsed roster. -/
inductive Artifact (ρ : Type) where
  | missing : Artifact ρ
  | corrupt : Artifact ρ
  | valid : ρ → Artifact ρ
deriving DecidableEq

/-- The Python exception escaping a loader that has no handler. -/
inductive PyErr where
  | jsonDecode : PyErr
deriving DecidableEq

/-- load_previous_snapshot from Groups_test/get_test_with_sort.py
(lines 74-80): a missing file yields the empty dict, but the json.load call
on an existing unreadable or corrupt file is not guarded by any handler, so
the exception propagates to the caller. -/
def loadPreviousSnapshotSort {γ μ : Type} :
    Artifact (List (γ × List μ)) → Except PyErr (List (γ × List μ))
  | .missing => .ok []
  | .corrupt => .error .jsonDecode
  | .valid d => .ok d

/-- load_previous_snapshot from get_test_with_updates_test.py
(lines 141-159): the open and json.load calls sit inside try/except, so a
missing, unreadable or corrupt artifact all yield the empty dict. -/
def loadPreviousSnapshotUpdates {γ μ : Type} :
    Artifact (List (γ × List μ)) → Except PyErr (List (γ × List μ))
  | .missing => .ok []
  | .corrupt => .ok []
  | .valid d => .ok d

/-- load_previous_snapshot from IK_Test/Critical_group_report.py
(lines 154-165): a parsed artifact is passed through
normalize_snapshot_keys, a missing file yields the empty dict, and an
unguarded json.load failure propagates. -/
def loadPreviousSnapshotCrit (nfc : Str → Str) :
    Artifact (List (Str × List Str)) → Except PyErr (List (Str × List Str))
  | .missing => .ok []
  | .corrupt => .error .jsonDecode
  | .valid d => .ok (normalizeSnapshotKeys nfc d)

/-- save_current_snapshot from IK_Test/Critical_group_report.py
(lines 168-174): the artifact content written to disk is the normalized
form of the data. -/
def saveCurrentSnapshotCrit (nfc : Str → Str) (data : List (Str × List Str)) :
    Artifact (List (Str × List Str)) :=
  .valid (normalizeSnapshotKeys nfc data)

/-- One group record from the groups listing: its service id and its display
name, the two fields the batch loop reads. -/
structure GroupRec (ι γ : Type) where
  id : ι
  displayName : γ
deriving DecidableEq

/-- One sub-response of a batch call, correlated back to its group: its
HTTP status and the display names extracted from the records of its body
value list. -/
structure SubResp (μ : Type) where
  status : Nat
  value : List μ
deriving DecidableEq

/-- The accumulation of batch requests: each group is appended to the
pending batch, which is flushed when it holds 20 requests or the last
group has been reached.  Flushing is positional on the last element here;
the Python code compares the looped group with groups[-1] by value, which
can only flush a partial batch earlier and never changes which group each
sub-response is correlated with, since sub-response ids are assigned
globally and indexed back into the full groups list. -/
def batches20Aux {α : Type} (cur : List α) : List α → List (List α)
  | [] => []
  | [x] => [cur ++ [x]]
  | x :: y :: xs =>
      if (cur ++ [x]).length = 20 then (cur ++ [x]) :: batches20Aux [] (y :: xs)
      else batches20Aux (cur ++ [x]) (y :: xs)

/-- The groups list as the sequence of batches the loop issues: runs of at
most 20 groups, in order. -/
def batches20 {α : Type} (l : List α) : List (List α) := batches20Aux [] l

/-- One batch of the response loop in get_all_group_members from
Groups_test/get_test_with_sort.py (lines 40-71): a sub-response with
status 200 stores its member list under the display name of its group, and
any other sub-response is passed over — the loop has no else branch and no
logging statement for that case. -/
def processBatchSort {ι γ μ : Type} [DecidableEq γ] (svc : ι → SubResp μ)
    (acc : List (γ × List μ)) (batch : List (GroupRec ι γ)) : List (γ × List μ) :=
  batch.foldl
    (fun d g =>
      if (svc g.id).status = 200 then dictInsert g.displayName (svc g.id).value d else d)
    acc

/-- get_all_group_members from Groups_test/get_test_with_sort.py
(lines 40-71), given the filtered groups list and the per-group
sub-response behaviour of the batch endpoint.  The second component is the
sequence of failure log lines the function prints for sub-responses: the
code contains none, so it is empty. -/
def getAllGroupMembersSort {ι γ μ : Type} [DecidableEq γ]
    (groups : List (GroupRec ι γ)) (svc : ι → SubResp μ) : List (γ × List μ) × List γ :=
  ((batches20 groups).foldl (processBatchSort svc) [], [])

/-- One batch of the response loop in get_all_group_members from
get_test_with_updates_test.py (lines 95-138): a status 200 sub-response
stores its member list, and any other sub-response prints an error line
naming the group and stores nothing. -/
def processBatchUpdates {ι γ μ : Type} [DecidableEq γ] (svc : ι → SubResp μ)
    (acc : List (γ × List μ) × List γ) (batch : List (GroupRec ι γ)) :
    List (γ × List μ) × List γ :=
  batch.foldl
    (fun dl g =>
      if (svc g.id).status = 200 then (dictInsert g.displayName (svc g.id).value dl.1, dl.2)
      else (dl.1, dl.2 ++ [g.displayName]))
    acc

/-- get_all_group_members from get_test_with_updates_test.py
(lines 95-138): the roster together with the log of groups whose
sub-response failed. -/
def getAllGroupMembersUpdates {ι γ μ : Type} [DecidableEq γ]
    (groups : List (GroupRec ι γ)) (svc : ι → SubResp μ) :
    List (γ × List μ) × List γ :=
  (batches20 groups).foldl (processBatchUpdates svc) ([], [])

/-- One member record as read by fetch_group_members: both the stable id
and the display name are optional fields of the Graph record. -/
structure MemberRec where
  id : Option Str
  displayName : Option Str
deriving DecidableEq

/-- Python a or b on optional strings: a when it is truthy (present and
nonempty), otherwise b, which may itself be absent or empty. -/
def pyOrStr (a b : Option Str) : Option Str :=
  match a with
  | some s => if s = [] then b else some s
  | none => b

/-- The identifier chosen for one record by fetch_group_members in
IK_Test/Critical_group_report.py: clean_text(m.get("displayName") or
m.get("id")) — the display label is preferred and the stable id is only
the fallback when the label is absent or empty. -/
def bestName (nfc : Str → Str) (m : MemberRec) : Str :=
  cleanTextOpt nfc (pyOrStr m.displayName m.id)

/-- fetch_group_members from IK_Test/Critical_group_report.py
(lines 108-120): pages are followed until no continuation link remains and
every record of every page contributes its chosen identifier, in order. -/
def fetchGroupMembers (nfc : Str → Str) (pages : List (List MemberRec)) : List Str :=
  (pages.map fun page => page.map (bestName nfc)).flatten

/-- get_group_ids_from_names from IK_Test/Critical_group_report.py
(lines 79-105): every name is looked up with an exact displayName filter;
a nonempty response value list stores the id of its first record, and a
name with no match prints a warning and stores nothing.  resolve abstracts
the filter query, returning the id of data[0] when data is nonempty.  The
second component is the list of warned-about names. -/
def getGroupIdsFromNames {ι : Type} (resolve : Str → Option ι) (names : List Str) :
    List (Str × ι) × List Str :=
  names.foldl
    (fun dw name =>
      match resolve name with
      | some gid => (dictInsert name gid dw.1, dw.2)
      | none => (dw.1, dw.2 ++ [name]))
    ([], [])

/-- get_all_group_members from IK_Test/Critical_group_report.py
(lines 123-149): names are resolved to ids, a name with no resolved id is
skipped with a warning line, and each fetched member list is cleaned again
and stored as a sorted set under the cleaned group name.  The second
component is the list of skipped names. -/
def getAllGroupMembersCrit {ι : Type} (nfc : Str → Str) (names : List Str)
    (resolve : Str → Option ι) (fetch : ι → List (List MemberRec)) :
    List (Str × List Str) × List Str :=
  let nameToId := (getGroupIdsFromNames resolve names).1
  names.foldl
    (fun dw name =>
      match dictGet name nameToId with
      | none => (dw.1, dw.2 ++ [name])
      | some gid =>
          (dictInsert (cleanText nfc name)
            (pySortedSet ((fetchGroupMembers nfc (fetch gid)).map (cleanText nfc))) dw.1,
           dw.2))
    ([], [])

/-- Stated from the SPEC, for comparison with the code: one GroupDelta is
correct for member lists cur and prev when added is the set difference
cur minus prev, removed is prev minus cur, unchanged is the intersection
(all three as sets, so that a group absent from one roster behaves as the
empty set), and each of the three lists is emitted sorted. -/
def DeltaMatchesSpec {μ : Type} [LinearOrder μ] (d : GroupDelta μ) (cur prev : List μ) : Prop :=
  (∀ x, x ∈ d.added ↔ x ∈ cur ∧ x ∉ prev) ∧
  (∀ x, x ∈ d.removed ↔ x ∈ prev ∧ x ∉ cur) ∧
  (∀ x, x ∈ d.unchanged ↔ x ∈ cur ∧ x ∈ prev) ∧
  d.added.Sorted (· ≤ ·) ∧ d.removed.Sorted (· ≤ ·) ∧ d.unchanged.Sorted (· ≤ ·)

/-- A concrete batch scenario: twenty groups with ids 1 to 20, where the
sub-response for id 7 carries status 500 and every other id succeeds with a
one-member body. -/
def exGroups : List (GroupRec Nat Nat) := (List.range 20).map fun i => ⟨i + 1, i + 1⟩

/-- The sub-response behaviour for the concrete batch scenario. -/
def exSvc : Nat → SubResp Nat := fun i => if i = 7 then ⟨500, []⟩ else ⟨200, [i]⟩

/-- A concrete groups listing in which two distinct member records of the
single group share one display name. -/
def dupGroups : List (GroupRec Nat Str) := [⟨0, ['g']⟩]

/-- The sub-response behaviour returning the duplicated display names. -/
def dupSvc : Nat → SubResp Str := fun _ => ⟨200, [['a'], ['a']]⟩

/-- A previous snapshot containing one group with one member, used for the
unresolved-group scenario. -/
def c8prev : List (Str × List Str) := [(['g'], [['m']])]

/-- A raw persisted snapshot whose single key carries leading whitespace,
so it is not in normalized form. -/
def rawSnap : List (Str × List Str) := [([' ', 'a'], [])]

/-- A resolver that finds every queried group name, with id 0. -/
def c7resolve : Str → Option Nat := fun _ => some 0

/-- A one-page member listing with two records carrying only display
names, out of order. -/
def c7fetch : Nat → List (List MemberRec) := fun _ => [[⟨none, some ['b']⟩, ⟨none, some ['a']⟩]]

/-- A resolver that finds no group name at all. -/
def c8resolve : Str → Option Nat := fun _ => none

/-- A member listing that is never reached, since no name resolves. -/
def c8fetch : Nat → List (List MemberRec) := fun _ => []

/- ------------------------------------------------------------------ -/
/- Helper lemmas.                                                     -/
/- ------------------------------------------------------------------ -/

theorem dictGet_eq_none_iff {γ β : Type} [DecidableEq γ] (g : γ) (d : List (γ × β)) :
    dictGet g d = none ↔ g ∉ dictKeys d := by
  induction d with
  | nil => simp [dictGet, dictKeys]
  | cons kv rest ih =>
    simp only [dictGet, dictKeys, List.map_cons, List.mem_cons]
    by_cases h : g = kv.1
    · simp [h]
    · simp [h, ih, dictKeys]

theorem dictGet_mem {γ β : Type} [DecidableEq γ] {g : γ} {v : β} {d : List (γ × β)}
    (h : dictGet g d = some v) : (g, v) ∈ d := by
  induction d with
  | nil => simp [dictGet] at h
  | cons kv rest ih =>
    simp only [dictGet] at h
    by_cases hg : g = kv.1
    · rw [if_pos hg] at h
      have hv : kv.2 = v := by injection h
      have : (g, v) = kv := by rw [hg, ← hv]
      rw [this]
      exact List.mem_cons_self _ _
    · rw [if_neg hg] at h
      exact List.mem_cons_of_mem _ (ih h)

theorem mem_keys_of_dictGet {γ β : Type} [DecidableEq γ] {g : γ} {v : β} {d : List (γ × β)}
    (h : dictGet g d = some v) : g ∈ dictKeys d := by
  have := dictGet_mem h
  exact List.mem_map.mpr ⟨(g, v), this, rfl⟩

theorem exists_dictGet_of_mem_keys {γ β : Type} [DecidableEq γ] {g : γ} {d : List (γ × β)}
    (h : g ∈ dictKeys d) : ∃ v, dictGet g d = some v := by
  cases hd : dictGet g d with
  | none => exact absurd h ((dictGet_eq_none_iff g d).mp hd)
  | some v => exact ⟨v, rfl⟩

theorem dictGet_dictInsert_self {γ β : Type} [DecidableEq γ] (k : γ) (v : β) (d : List (γ × β)) :
    dictGet k (dictInsert k v d) = some v := by
  induction d with
  | nil => simp [dictGet, dictInsert]
  | cons kv rest ih =>
    simp only [dictInsert]
    by_cases h : kv.1 = k
    · simp [h, dictGet]
    · simp only [if_neg h, dictGet]
      rw [if_neg (fun hk => h hk.symm)]
      exact ih

theorem dictGet_dictInsert_ne {γ β : Type} [DecidableEq γ] {g k : γ} (v : β)
    (d : List (γ × β)) (h : g ≠ k) : dictGet g (dictInsert k v d) = dictGet g d := by
  induction d with
  | nil => simp [dictGet, dictInsert, h]
  | cons kv rest ih =>
    simp only [dictInsert]
    by_cases hk : kv.1 = k
    · simp only [if_pos hk, dictGet, if_neg h, if_neg (hk ▸ h)]
    · simp only [if_neg hk, dictGet]
      by_cases hg : g = kv.1
      · simp [hg]
      · simp [hg, ih]

theorem mem_dictInsert {γ β : Type} [DecidableEq γ] {kv : γ × β} {k : γ} {v : β}
    {d : List (γ × β)} (h : kv ∈ dictInsert k v d) : kv = (k, v) ∨ kv ∈ d := by
  induction d with
  | nil => simpa [dictInsert] using h
  | cons kv0 rest ih =>
    simp only [dictInsert] at h
    by_cases hk : kv0.1 = k
    · rw [if_pos hk] at h
      rcases List.mem_cons.mp h with h1 | h1
      · exact Or.inl h1
      · exact Or.inr (List.mem_cons_of_mem _ h1)
    · rw [if_neg hk] at h
      rcases List.mem_cons.mp h with h1 | h1
      · exact Or.inr (h1 ▸ List.mem_cons_self _ _)
      · rcases ih h1 with h2 | h2
        · exact Or.inl h2
        · exact Or.inr (List.mem_cons_of_mem _ h2)

theorem dictGet_map_mk {γ β : Type} [DecidableEq γ] (f : γ → β) (L : List γ) (g : γ) :
    dictGet g (L.map fun k => (k, f k)) = if g ∈ L then some (f g) else none := by
  induction L with
  | nil => simp [dictGet]
  | cons k rest ih =>
    simp only [List.map_cons, dictGet, List.mem_cons]
    by_cases hk : g = k
    · subst hk; simp
    · simp [hk, ih]

theorem dictKeys_map_mk {γ β : Type} (f : γ → β) (L : List γ) :
    dictKeys (L.map fun k => (k, f k)) = L := by
  induction L with
  | nil => rfl
  | cons k rest ih => simp [dictKeys, List.map_cons] at ih ⊢; exact ih

theorem mem_pySorted {μ : Type} [LinearOrder μ] {x : μ} {l : List μ} :
    x ∈ pySorted l ↔ x ∈ l :=
  List.mem_insertionSort _

theorem sorted_pySorted {μ : Type} [LinearOrder μ] (l : List μ) :
    (pySorted l).Sorted (· ≤ ·) :=
  List.sorted_insertionSort _ l

theorem mem_pySortedSet {μ : Type} [LinearOrder μ] {x : μ} {l : List μ} :
    x ∈ pySortedSet l ↔ x ∈ l := by
  rw [pySortedSet, mem_pySorted, List.mem_dedup]

theorem sorted_pySortedSet {μ : Type} [LinearOrder μ] (l : List μ) :
    (pySortedSet l).Sorted (· ≤ ·) :=
  sorted_pySorted _

theorem nodup_pySortedSet {μ : Type} [LinearOrder μ] (l : List μ) :
    (pySortedSet l).Nodup :=
  (List.perm_insertionSort _ _).nodup_iff.mpr l.nodup_dedup

theorem mem_pySetDiff {μ : Type} [DecidableEq μ] {x : μ} {a b : List μ} :
    x ∈ pySetDiff a b ↔ x ∈ a ∧ x ∉ b := by
  simp [pySetDiff, List.mem_filter]

theorem mem_pySetInter {μ : Type} [DecidableEq μ] {x : μ} {a b : List μ} :
    x ∈ pySetInter a b ↔ x ∈ a ∧ x ∈ b := by
  simp [pySetInter, List.mem_filter]

theorem pySetDiff_not_isEmpty_iff {μ : Type} [DecidableEq μ] {a b : List μ} :
    ((pySetDiff a b).isEmpty = false) ↔ ∃ x, x ∈ a ∧ x ∉ b := by
  rw [← Bool.not_eq_true, List.isEmpty_iff]
  constructor
  · intro h
    rcases List.exists_mem_of_ne_nil _ h with ⟨x, hx⟩
    exact ⟨x, mem_pySetDiff.mp hx⟩
  · rintro ⟨x, hx⟩ hnil
    have : x ∈ ([] : List μ) := hnil ▸ mem_pySetDiff.mpr hx
    cases this

theorem mem_allSnapshotKeys {γ μ : Type} [DecidableEq γ] {g : γ}
    {current previous : List (γ × List μ)} :
    g ∈ allSnapshotKeys current previous ↔ g ∈ dictKeys current ∨ g ∈ dictKeys previous := by
  simp [allSnapshotKeys]

theorem getMembers_of_none {γ μ : Type} [DecidableEq γ] {g : γ} {d : List (γ × List μ)}
    (h : dictGet g d = none) : getMembers g d = [] := by
  simp [getMembers, h]

theorem getMembers_of_some {γ μ : Type} [DecidableEq γ] {g : γ} {v : List μ}
    {d : List (γ × List μ)} (h : dictGet g d = some v) : getMembers g d = v := by
  simp [getMembers, h]

theorem mem_keys_of_mem_getMembers {γ μ : Type} [DecidableEq γ] {g : γ} {x : μ}
    {d : List (γ × List μ)} (h : x ∈ getMembers g d) : g ∈ dictKeys d := by
  cases hd : dictGet g d with
  | none => rw [getMembers_of_none hd] at h; cases h
  | some v => exact mem_keys_of_dictGet hd

theorem sortResult_dictGet {γ μ : Type} [DecidableEq γ] [LinearOrder μ]
    (current previous : List (γ × List μ)) (g : γ) :
    dictGet g (compareSnapshotsSort current previous).1 =
      if g ∈ allSnapshotKeys current previous then
        some { added := pySorted (pySetDiff (getMembers g current) (getMembers g previous))
               removed := pySorted (pySetDiff (getMembers g previous) (getMembers g current))
               unchanged := pySorted (pySetInter (getMembers g current) (getMembers g previous)) }
      else none :=
  dictGet_map_mk _ _ g

theorem critResult_dictGet {γ μ : Type} [DecidableEq γ] [LinearOrder μ]
    (current previous : List (γ × List μ)) (g : γ) :
    dictGet g (compareSnapshotsCrit current previous).result =
      if g ∈ allSnapshotKeys current previous then some (critDelta current previous g)
      else none :=
  dictGet_map_mk _ _ g

theorem sortResult_keys {γ μ : Type} [DecidableEq γ] [LinearOrder μ]
    (current previous : List (γ × List μ)) :
    dictKeys (compareSnapshotsSort current previous).1 = allSnapshotKeys current previous :=
  dictKeys_map_mk _ _

theorem critResult_keys {γ μ : Type} [DecidableEq γ] [LinearOrder μ]
    (current previous : List (γ × List μ)) :
    dictKeys (compareSnapshotsCrit current previous).result = allSnapshotKeys current previous :=
  dictKeys_map_mk _ _

theorem deltaSpec_sort {γ μ : Type} [DecidableEq γ] [LinearOrder μ]
    (current previous : List (γ × List μ)) (g : γ) (d : GroupDelta μ)
    (hd : dictGet g (compareSnapshotsSort current previous).1 = some d) :
    DeltaMatchesSpec d (getMembers g current) (getMembers g previous) := by
  rw [sortResult_dictGet] at hd
  by_cases h : g ∈ allSnapshotKeys current previous
  · rw [if_pos h] at hd
    have hd' := Option.some.inj hd
    subst hd'
    refine ⟨?_, ?_, ?_, sorted_pySorted _, sorted_pySorted _, sorted_pySorted _⟩
    · intro x; rw [mem_pySorted, mem_pySetDiff]
    · intro x; rw [mem_pySorted, mem_pySetDiff]
    · intro x; rw [mem_pySorted, mem_pySetInter]
  · rw [if_neg h] at hd; cases hd

theorem deltaSpec_crit {γ μ : Type} [DecidableEq γ] [LinearOrder μ]
    (current previous : List (γ × List μ)) (g : γ) (d : GroupDelta μ)
    (hd : dictGet g (compareSnapshotsCrit current previous).result = some d) :
    DeltaMatchesSpec d (getMembers g current) (getMembers g previous) := by
  rw [critResult_dictGet] at hd
  by_cases h : g ∈ allSnapshotKeys current previous
  · rw [if_pos h] at hd
    have hd' := Option.some.inj hd
    subst hd'
    unfold critDelta
    by_cases h1 : dictGet g previous = none
    · rw [if_pos h1]
      have hp := getMembers_of_none h1
      refine ⟨?_, ?_, ?_, sorted_pySorted _, List.sorted_nil, List.sorted_nil⟩
      · intro x; simp [mem_pySorted, hp]
      · intro x; simp [hp]
      · intro x; simp [hp]
    · rw [if_neg h1]
      by_cases h2 : dictGet g current = none
      · rw [if_pos h2]
        have hc := getMembers_of_none h2
        refine ⟨?_, ?_, ?_, List.sorted_nil, sorted_pySorted _, List.sorted_nil⟩
        · intro x; simp [hc]
        · intro x; simp [mem_pySorted, hc]
        · intro x; simp [hc]
      · rw [if_neg h2]
        refine ⟨?_, ?_, ?_, sorted_pySorted _, sorted_pySorted _, sorted_pySorted _⟩
        · intro x; rw [mem_pySorted, mem_pySetDiff]
        · intro x; rw [mem_pySorted, mem_pySetDiff]
        · intro x; rw [mem_pySorted, mem_pySetInter]
  · rw [if_neg h] at hd; cases hd

/-- C1: for every pair of rosters, both comparison functions return a
mapping whose key set is the union of the two key sets, and every reported
GroupDelta is, as a set, added = current minus previous, removed =
previous minus current, unchanged = the intersection (with a group absent
from one roster contributing the empty member set, which subsumes the
newly-observed and disappeared cases of the claim), and each of the three
lists is emitted in sorted order. -/
theorem c1_compare_key_union_and_deltas {γ μ : Type} [DecidableEq γ] [LinearOrder μ]
    (current previous : List (γ × List μ)) (g : γ) :
    (g ∈ dictKeys (compareSnapshotsSort current previous).1 ↔
      g ∈ dictKeys current ∨ g ∈ dictKeys previous) ∧
    (g ∈ dictKeys (compareSnapshotsCrit current previous).result ↔
      g ∈ dictKeys current ∨ g ∈ dictKeys previous) ∧
    (∀ d, dictGet g (compareSnapshotsSort current previous).1 = some d →
      DeltaMatchesSpec d (getMembers g current) (getMembers g previous)) ∧
    (∀ d, dictGet g (compareSnapshotsCrit current previous).result = some d →
      DeltaMatchesSpec d (getMembers g current) (getMembers g previous)) := by
  refine ⟨?_, ?_, ?_, ?_⟩
  · rw [sortResult_keys]; exact mem_allSnapshotKeys
  · rw [critResult_keys]; exact mem_allSnapshotKeys
  · exact fun d hd => deltaSpec_sort current previous g d hd
  · exact fun d hd => deltaSpec_crit current previous g d hd

/-- C1 witness: the IT scenario, current = one group with member 10 and
previous = the same group with members 10 and 20, through both variants. -/
theorem c1_witness :
    DeltaMatchesSpec (⟨[], [20], [10]⟩ : GroupDelta Nat)
      (getMembers 1 [((1 : Nat), [10])]) (getMembers 1 [((1 : Nat), [10, 20])]) ∧
    DeltaMatchesSpec (⟨[], [20], [10]⟩ : GroupDelta Nat)
      (getMembers 1 [((1 : Nat), [10])]) (getMembers 1 [((1 : Nat), [10, 20])]) :=
  ⟨(c1_compare_key_union_and_deltas [((1 : Nat), [10])] [((1 : Nat), [10, 20])] 1).2.2.1
      ⟨[], [20], [10]⟩ (by decide),
   (c1_compare_key_union_and_deltas [((1 : Nat), [10])] [((1 : Nat), [10, 20])] 1).2.2.2
      ⟨[], [20], [10]⟩ (by decide)⟩

theorem changesFlag_iff {γ μ : Type} [DecidableEq γ] [LinearOrder μ]
    (current previous : List (γ × List μ)) :
    (((allSnapshotKeys current previous).any fun g =>
        !(pySetDiff (getMembers g current) (getMembers g previous)).isEmpty ||
        !(pySetDiff (getMembers g previous) (getMembers g current)).isEmpty) = true) ↔
    (∃ g x, (x ∈ getMembers g current ∧ x ∉ getMembers g previous) ∨
            (x ∈ getMembers g previous ∧ x ∉ getMembers g current)) := by
  rw [List.any_eq_true]
  constructor
  · rintro ⟨g, hg, hb⟩
    rw [Bool.or_eq_true, Bool.not_eq_true', Bool.not_eq_true'] at hb
    rcases hb with hb | hb
    · rcases pySetDiff_not_isEmpty_iff.mp hb with ⟨x, hx⟩
      exact ⟨g, x, Or.inl hx⟩
    · rcases pySetDiff_not_isEmpty_iff.mp hb with ⟨x, hx⟩
      exact ⟨g, x, Or.inr hx⟩
  · rintro ⟨g, x, hx⟩
    have hgmem : g ∈ allSnapshotKeys current previous := by
      rcases hx with ⟨hx1, _⟩ | ⟨hx1, _⟩
      · exact mem_allSnapshotKeys.mpr (Or.inl (mem_keys_of_mem_getMembers hx1))
      · exact mem_allSnapshotKeys.mpr (Or.inr (mem_keys_of_mem_getMembers hx1))
    refine ⟨g, hgmem, ?_⟩
    rw [Bool.or_eq_true, Bool.not_eq_true', Bool.not_eq_true']
    rcases hx with hx | hx
    · exact Or.inl (pySetDiff_not_isEmpty_iff.mpr ⟨x, hx⟩)
    · exact Or.inr (pySetDiff_not_isEmpty_iff.mpr ⟨x, hx⟩)

/-- C2 (amended): in the sort and updates variants, changes_detected is
true iff some member is present on one side of some group and absent from
the other — i.e. iff the rosters differ as total maps from group names to
member sets, with an absent group identified with the empty set.  A group
key present in only one mapping with an empty member set therefore does
NOT raise changes_detected in these variants. -/
theorem c2_changes_detected_iff_member_difference {γ μ : Type} [DecidableEq γ] [LinearOrder μ]
    (current previous : List (γ × List μ)) :
    ((compareSnapshotsSort current previous).2 = true ↔
      ∃ g x, (x ∈ getMembers g current ∧ x ∉ getMembers g previous) ∨
             (x ∈ getMembers g previous ∧ x ∉ getMembers g current)) ∧
    ((generateSnapshot current previous).2 = true ↔
      ∃ g x, (x ∈ getMembers g current ∧ x ∉ getMembers g previous) ∨
             (x ∈ getMembers g previous ∧ x ∉ getMembers g current)) :=
  ⟨changesFlag_iff current previous, changesFlag_iff current previous⟩

/-- C2 counterexample: a group that is present in current with an empty
member set and absent from previous.  The key sets of the two rosters
differ, so the claim requires changes_detected = true, but both the sort
variant and the updates variant report false. -/
theorem c2_counterexample :
    (compareSnapshotsSort [((0 : Nat), ([] : List Nat))] []).2 = false ∧
    (generateSnapshot [((0 : Nat), ([] : List Nat))] []).2 = false ∧
    (0 : Nat) ∈ dictKeys [((0 : Nat), ([] : List Nat))] ∧
    (0 : Nat) ∉ dictKeys ([] : List (Nat × List Nat)) := by decide

/-- C2 witness: a genuine membership difference does raise the flag. -/
theorem c2_witness :
    (compareSnapshotsSort [((0 : Nat), [1])] ([] : List (Nat × List Nat))).2 = true :=
  (c2_changes_detected_iff_member_difference [((0 : Nat), [1])] []).1.mpr
    ⟨0, 1, Or.inl (by decide)⟩

/-- C4: in both comparison variants, every reported GroupDelta satisfies
the invariants: added and removed are disjoint, added together with
unchanged is exactly the current member set of the group (empty when the
group is absent from current), and removed together with unchanged is
exactly the previous member set (empty when absent from previous). -/
theorem c4_delta_invariants {γ μ : Type} [DecidableEq γ] [LinearOrder μ]
    (current previous : List (γ × List μ)) (g : γ) (d : GroupDelta μ)
    (hd : dictGet g (compareSnapshotsSort current previous).1 = some d ∨
          dictGet g (compareSnapshotsCrit current previous).result = some d) :
    (∀ x, ¬(x ∈ d.added ∧ x ∈ d.removed)) ∧
    (∀ x, (x ∈ d.added ∨ x ∈ d.unchanged) ↔ x ∈ getMembers g current) ∧
    (∀ x, (x ∈ d.removed ∨ x ∈ d.unchanged) ↔ x ∈ getMembers g previous) := by
  have hspec : DeltaMatchesSpec d (getMembers g current) (getMembers g previous) := by
    rcases hd with h | h
    · exact deltaSpec_sort current previous g d h
    · exact deltaSpec_crit current previous g d h
  obtain ⟨ha, hr, hu, _, _, _⟩ := hspec
  refine ⟨?_, ?_, ?_⟩
  · rintro x ⟨hxa, hxr⟩
    exact ((ha x).mp hxa).2 ((hr x).mp hxr).1
  · intro x
    constructor
    · rintro (hx | hx)
      · exact ((ha x).mp hx).1
      · exact ((hu x).mp hx).1
    · intro hx
      by_cases hp : x ∈ getMembers g previous
      · exact Or.inr ((hu x).mpr ⟨hx, hp⟩)
      · exact Or.inl ((ha x).mpr ⟨hx, hp⟩)
  · intro x
    constructor
    · rintro (hx | hx)
      · exact ((hr x).mp hx).1
      · exact ((hu x).mp hx).2
    · intro hx
      by_cases hc : x ∈ getMembers g current
      · exact Or.inr ((hu x).mpr ⟨hc, hx⟩)
      · exact Or.inl ((hr x).mpr ⟨hx, hc⟩)

/-- C4 witness: the invariants at the concrete IT scenario, via the
critical-variant comparison. -/
theorem c4_witness :
    (∀ x, ¬(x ∈ (⟨[], [20], [10]⟩ : GroupDelta Nat).added ∧
            x ∈ (⟨[], [20], [10]⟩ : GroupDelta Nat).removed)) ∧
    (∀ x, (x ∈ (⟨[], [20], [10]⟩ : GroupDelta Nat).added ∨
           x ∈ (⟨[], [20], [10]⟩ : GroupDelta Nat).unchanged) ↔
          x ∈ getMembers 1 [((1 : Nat), [10])]) ∧
    (∀ x, (x ∈ (⟨[], [20], [10]⟩ : GroupDelta Nat).removed ∨
           x ∈ (⟨[], [20], [10]⟩ : GroupDelta Nat).unchanged) ↔
          x ∈ getMembers 1 [((1 : Nat), [10, 20])]) :=
  c4_delta_invariants [((1 : Nat), [10])] [((1 : Nat), [10, 20])] 1
    ⟨[], [20], [10]⟩ (Or.inr (by decide))

theorem dropWhile_eq_self_of_prefixOf {α : Type} (p : α → Bool) {l y : List α}
    (hp : l <+: y) (hy : y.dropWhile p = y) : l.dropWhile p = l := by
  cases l with
  | nil => simp
  | cons a zs =>
    obtain ⟨t, ht⟩ := hp
    have hpa : ¬ p a = true := by
      intro hpa
      rw [← ht, List.cons_append, List.dropWhile_cons, if_pos hpa] at hy
      have hlen := congrArg List.length hy
      have hle : (List.dropWhile p (zs ++ t)).length ≤ (zs ++ t).length :=
        (List.dropWhile_suffix p).length_le
      simp only [List.length_cons] at hlen
      omega
    rw [List.dropWhile_cons, if_neg hpa]

theorem pyStrip_idem (s : Str) : pyStrip (pyStrip s) = pyStrip s := by
  unfold pyStrip
  have h1 : List.dropWhile isPyWhitespace
      (List.rdropWhile isPyWhitespace (List.dropWhile isPyWhitespace s)) =
      List.rdropWhile isPyWhitespace (List.dropWhile isPyWhitespace s) :=
    dropWhile_eq_self_of_prefixOf _ (List.rdropWhile_prefix _ _) (List.dropWhile_idempotent _ _)
  rw [h1, List.rdropWhile_idempotent]

/-- C3 counterexample: for x = a space, then a byte order mark, then the
letter a, one application of clean_text trims the leading space and leaves
the now-leading byte order mark in place (lstrip of the mark ran before the
whitespace trim), while a second application removes it.  The nfc argument
is the identity, which agrees with Unicode NFC on these NFC-inert code
points, so the evaluation below is exactly what the Python code computes. -/
theorem c3_counterexample :
    cleanText id [' ', '\uFEFF', 'a'] = ['\uFEFF', 'a'] ∧
    cleanText id (cleanText id [' ', '\uFEFF', 'a']) = ['a'] ∧
    cleanText id (cleanText id [' ', '\uFEFF', 'a']) ≠ cleanText id [' ', '\uFEFF', 'a'] := by
  decide

/-- C3 (amended): clean_text is idempotent on every input whose trimmed,
mark-stripped form does not itself begin with a byte order mark — that is,
whenever trimming whitespace does not expose a new leading byte order
mark.  The statement holds for every nfc function that maps the empty
string to itself, is idempotent, and preserves the absence of a leading
byte order mark and of leading or trailing whitespace; the real Unicode
NFC map has all four properties. -/
theorem c3_cleanText_idempotent_unless_bom_exposed
    (nfc : Str → Str)
    (hNil : nfc [] = [])
    (hIdem : ∀ t, nfc (nfc t) = nfc t)
    (hBom : ∀ t, lstripBOM t = t → lstripBOM (nfc t) = nfc t)
    (hStrip : ∀ t, pyStrip t = t → pyStrip (nfc t) = nfc t)
    (s : Str) (hs : lstripBOM (pyStrip (lstripBOM s)) = pyStrip (lstripBOM s)) :
    cleanText nfc (cleanText nfc s) = cleanText nfc s := by
  by_cases h0 : s = []
  · subst h0; simp [cleanText]
  · have h1 : cleanText nfc s = nfc (pyStrip (lstripBOM s)) := by
      rw [cleanText, if_neg h0]
    rw [h1]
    by_cases ht : nfc (pyStrip (lstripBOM s)) = []
    · rw [ht, cleanText, if_pos rfl]
    · have hb : lstripBOM (nfc (pyStrip (lstripBOM s))) = nfc (pyStrip (lstripBOM s)) :=
        hBom _ hs
      have hps : pyStrip (nfc (pyStrip (lstripBOM s))) = nfc (pyStrip (lstripBOM s)) :=
        hStrip _ (pyStrip_idem _)
      rw [cleanText, if_neg ht, hb, hps, hIdem]

/-- C3 witness: idempotence at the already clean one-letter string, with
the identity as the nfc function. -/
theorem c3_witness : cleanText id (cleanText id ['a']) = cleanText id ['a'] :=
  c3_cleanText_idempotent_unless_bom_exposed id rfl (fun _ => rfl) (fun _ h => h)
    (fun _ h => h) ['a'] (by decide)

/-- C5 counterexample: an existing but corrupt (or unreadable) artifact
makes the sort-variant loader raise the json.load exception to its caller
instead of returning the empty snapshot, because only the missing-file
case is handled. -/
theorem c5_counterexample :
    loadPreviousSnapshotSort (Artifact.corrupt : Artifact (List (Nat × List Nat))) =
      Except.error PyErr.jsonDecode ∧
    loadPreviousSnapshotSort (Artifact.corrupt : Artifact (List (Nat × List Nat))) ≠
      Except.ok [] :=
  ⟨rfl, fun h => Except.noConfusion h⟩

/-- C5 (amended): the updates-variant loader fails soft for every artifact
state — it never raises, and returns the empty snapshot for a missing and
for a corrupt or unreadable artifact alike; the sort-variant loader
returns the empty snapshot only for a missing artifact and raises the
json.load error on a corrupt or unreadable one. -/
theorem c5_load_fail_soft {γ μ : Type} :
    (∀ a : Artifact (List (γ × List μ)), ∃ r, loadPreviousSnapshotUpdates a = Except.ok r) ∧
    loadPreviousSnapshotUpdates (Artifact.missing : Artifact (List (γ × List μ))) =
      Except.ok [] ∧
    loadPreviousSnapshotUpdates (Artifact.corrupt : Artifact (List (γ × List μ))) =
      Except.ok [] ∧
    loadPreviousSnapshotSort (Artifact.missing : Artifact (List (γ × List μ))) =
      Except.ok [] ∧
    loadPreviousSnapshotSort (Artifact.corrupt : Artifact (List (γ × List μ))) =
      Except.error PyErr.jsonDecode := by
  refine ⟨fun a => ?_, rfl, rfl, rfl, rfl⟩
  cases a with
  | missing => exact ⟨[], rfl⟩
  | corrupt => exact ⟨[], rfl⟩
  | valid d => exact ⟨d, rfl⟩

theorem foldl_batches20Aux {α σ : Type} (f : σ → α → σ) (F : σ → List α → σ)
    (hF : ∀ acc b, F acc b = b.foldl f acc) :
    ∀ (l : List α) (cur : List α) (init : σ), l ≠ [] →
      (batches20Aux cur l).foldl F init = (cur ++ l).foldl f init := by
  intro l
  induction l with
  | nil => intro cur init h; exact absurd rfl h
  | cons x xs ih =>
    intro cur init h
    cases xs with
    | nil => simp [batches20Aux, hF, List.foldl_append]
    | cons y ys =>
      by_cases h20 : (cur ++ [x]).length = 20
      · rw [batches20Aux, if_pos h20, List.foldl_cons, hF,
          ih [] ((cur ++ [x]).foldl f init) (by simp), List.nil_append]
        simp [List.foldl_append]
      · rw [batches20Aux, if_neg h20, ih (cur ++ [x]) init (by simp)]
        rw [show cur ++ x :: y :: ys = (cur ++ [x]) ++ y :: ys by simp]

theorem getAllGroupMembersSort_eq_flat {ι γ μ : Type} [DecidableEq γ]
    (groups : List (GroupRec ι γ)) (svc : ι → SubResp μ) :
    (getAllGroupMembersSort groups svc).1 =
      groups.foldl (fun d g =>
        if (svc g.id).status = 200 then dictInsert g.displayName (svc g.id).value d else d)
        [] := by
  cases groups with
  | nil => rfl
  | cons x xs =>
    have h := foldl_batches20Aux
      (fun d (g : GroupRec ι γ) =>
        if (svc g.id).status = 200 then dictInsert g.displayName (svc g.id).value d else d)
      (processBatchSort svc) (fun acc b => rfl) (x :: xs) [] [] (by simp)
    simpa [getAllGroupMembersSort, batches20] using h

theorem getAllGroupMembersUpdates_eq_flat {ι γ μ : Type} [DecidableEq γ]
    (groups : List (GroupRec ι γ)) (svc : ι → SubResp μ) :
    getAllGroupMembersUpdates groups svc =
      groups.foldl (fun dl g =>
        if (svc g.id).status = 200
        then (dictInsert g.displayName (svc g.id).value dl.1, dl.2)
        else (dl.1, dl.2 ++ [g.displayName]))
        ([], []) := by
  cases groups with
  | nil => rfl
  | cons x xs =>
    have h := foldl_batches20Aux
      (fun dl (g : GroupRec ι γ) =>
        if (svc g.id).status = 200
        then (dictInsert g.displayName (svc g.id).value dl.1, dl.2)
        else (dl.1, dl.2 ++ [g.displayName]))
      (processBatchUpdates svc) (fun acc b => rfl) (x :: xs) [] ([], []) (by simp)
    simpa [getAllGroupMembersUpdates, batches20] using h

theorem dictGet_foldl_skip {γ β σ : Type} [DecidableEq γ] (key : σ → γ) (val : σ → β)
    (keep : σ → Prop) [DecidablePred keep] (l : List σ) :
    ∀ (acc : List (γ × β)) (k : γ), k ∉ l.map key →
      dictGet k (l.foldl
        (fun d s => if keep s then dictInsert (key s) (val s) d else d) acc) =
      dictGet k acc := by
  induction l with
  | nil => intro acc k hk; rfl
  | cons s rest ih =>
    intro acc k hk
    simp only [List.map_cons, List.mem_cons, not_or] at hk
    rw [List.foldl_cons, ih _ k hk.2]
    by_cases hs : keep s
    · rw [if_pos hs, dictGet_dictInsert_ne _ _ hk.1]
    · rw [if_neg hs]

theorem dictGet_foldl_insert {γ β σ : Type} [DecidableEq γ] (key : σ → γ) (val : σ → β)
    (keep : σ → Prop) [DecidablePred keep] (l : List σ) :
    ∀ (acc : List (γ × β)) (g : σ), g ∈ l → (l.map key).Nodup →
      dictGet (key g) acc = none →
      dictGet (key g) (l.foldl
        (fun d s => if keep s then dictInsert (key s) (val s) d else d) acc) =
      (if keep g then some (val g) else none) := by
  induction l with
  | nil => intro acc g hg; cases hg
  | cons s rest ih =>
    intro acc g hg hnd hacc
    simp only [List.map_cons, List.nodup_cons] at hnd
    rcases List.mem_cons.mp hg with hg1 | hg1
    · subst hg1
      rw [List.foldl_cons, dictGet_foldl_skip key val keep rest _ (key g) hnd.1]
      by_cases hs : keep g
      · rw [if_pos hs, if_pos hs, dictGet_dictInsert_self]
      · rw [if_neg hs, if_neg hs, hacc]
    · have hne : key g ≠ key s := by
        intro he
        exact hnd.1 (he ▸ List.mem_map.mpr ⟨g, hg1, rfl⟩)
      rw [List.foldl_cons]
      refine ih _ g hg1 hnd.2 ?_
      by_cases hs : keep s
      · rw [if_pos hs, dictGet_dictInsert_ne _ _ hne, hacc]
      · rw [if_neg hs, hacc]

theorem updatesFold_fst {ι γ μ : Type} [DecidableEq γ] (svc : ι → SubResp μ)
    (l : List (GroupRec ι γ)) :
    ∀ (dw : List (γ × List μ) × List γ),
      (l.foldl (fun dl g =>
        if (svc g.id).status = 200
        then (dictInsert g.displayName (svc g.id).value dl.1, dl.2)
        else (dl.1, dl.2 ++ [g.displayName])) dw).1 =
      l.foldl (fun d g =>
        if (svc g.id).status = 200 then dictInsert g.displayName (svc g.id).value d else d)
        dw.1 := by
  induction l with
  | nil => intro dw; rfl
  | cons s rest ih =>
    intro dw
    rw [List.foldl_cons, List.foldl_cons, ih _]
    by_cases hs : (svc s.id).status = 200
    · rw [if_pos hs, if_pos hs]
    · rw [if_neg hs, if_neg hs]

theorem updatesFold_log_mono {ι γ μ : Type} [DecidableEq γ] (svc : ι → SubResp μ)
    (l : List (GroupRec ι γ)) :
    ∀ (dw : List (γ × List μ) × List γ) (x : γ), x ∈ dw.2 →
      x ∈ (l.foldl (fun dl g =>
        if (svc g.id).status = 200
        then (dictInsert g.displayName (svc g.id).value dl.1, dl.2)
        else (dl.1, dl.2 ++ [g.displayName])) dw).2 := by
  induction l with
  | nil => intro dw x hx; exact hx
  | cons s rest ih =>
    intro dw x hx
    rw [List.foldl_cons]
    refine ih _ x ?_
    by_cases hs : (svc s.id).status = 200
    · rw [if_pos hs]; exact hx
    · rw [if_neg hs]; exact List.mem_append_left _ hx

theorem updatesFold_log_mem {ι γ μ : Type} [DecidableEq γ] (svc : ι → SubResp μ)
    (l : List (GroupRec ι γ)) :
    ∀ (dw : List (γ × List μ) × List γ) (g : GroupRec ι γ), g ∈ l →
      (svc g.id).status ≠ 200 →
      g.displayName ∈ (l.foldl (fun dl g =>
        if (svc g.id).status = 200
        then (dictInsert g.displayName (svc g.id).value dl.1, dl.2)
        else (dl.1, dl.2 ++ [g.displayName])) dw).2 := by
  induction l with
  | nil => intro dw g hg; cases hg
  | cons s rest ih =>
    intro dw g hg hfail
    rcases List.mem_cons.mp hg with hg1 | hg1
    · subst hg1
      rw [List.foldl_cons, if_neg hfail]
      exact updatesFold_log_mono svc rest _ _ (List.mem_append_right _ (List.mem_singleton.mpr rfl))
    · rw [List.foldl_cons]
      exact ih _ g hg1 hfail

/-- C6 (amended): when one sub-response of a batched multi-group fetch
carries a non-success status, neither variant raises: the failing group is
omitted from the returned roster and every group with a successful
sub-response keeps its member list.  The updates variant additionally logs
the failing group; the sort variant has no logging statement in its
sub-response loop, so the failure is skipped silently there. -/
theorem c6_batch_subfailure_skips_group {ι γ μ : Type} [DecidableEq γ]
    (groups : List (GroupRec ι γ)) (svc : ι → SubResp μ)
    (hnd : (groups.map GroupRec.displayName).Nodup)
    (g : GroupRec ι γ) (hg : g ∈ groups) :
    ((svc g.id).status ≠ 200 →
      dictGet g.displayName (getAllGroupMembersSort groups svc).1 = none ∧
      dictGet g.displayName (getAllGroupMembersUpdates groups svc).1 = none ∧
      g.displayName ∈ (getAllGroupMembersUpdates groups svc).2 ∧
      (getAllGroupMembersSort groups svc).2 = []) ∧
    ((svc g.id).status = 200 →
      dictGet g.displayName (getAllGroupMembersSort groups svc).1 =
        some (svc g.id).value ∧
      dictGet g.displayName (getAllGroupMembersUpdates groups svc).1 =
        some (svc g.id).value) := by
  have hchar : dictGet g.displayName
      (groups.foldl (fun d x =>
        if (svc x.id).status = 200 then dictInsert x.displayName (svc x.id).value d else d)
        []) =
      (if (svc g.id).status = 200 then some (svc g.id).value else none) :=
    dictGet_foldl_insert GroupRec.displayName (fun x => (svc x.id).value)
      (fun x => (svc x.id).status = 200) groups [] g hg hnd rfl
  have hupd : dictGet g.displayName (getAllGroupMembersUpdates groups svc).1 =
      (if (svc g.id).status = 200 then some (svc g.id).value else none) := by
    rw [getAllGroupMembersUpdates_eq_flat, updatesFold_fst]
    exact hchar
  constructor
  · intro hfail
    refine ⟨?_, ?_, ?_, rfl⟩
    · rw [getAllGroupMembersSort_eq_flat, hchar, if_neg hfail]
    · rw [hupd, if_neg hfail]
    · rw [getAllGroupMembersUpdates_eq_flat]
      exact updatesFold_log_mem svc groups ([], []) g hg hfail
  · intro hok
    refine ⟨?_, ?_⟩
    · rw [getAllGroupMembersSort_eq_flat, hchar, if_pos hok]
    · rw [hupd, if_pos hok]

/-- C6 counterexample: in the concrete twenty-group batch where the
sub-response for group 7 fails, the sort variant does omit the group and
keep the other nineteen, but its returned log of failure lines is empty —
nothing is logged, contradicting the claim for this cited variant. -/
theorem c6_counterexample :
    (exSvc 7).status = 500 ∧
    dictGet 7 (getAllGroupMembersSort exGroups exSvc).1 = none ∧
    (getAllGroupMembersSort exGroups exSvc).1.length = 19 ∧
    dictGet 1 (getAllGroupMembersSort exGroups exSvc).1 = some [1] ∧
    (getAllGroupMembersSort exGroups exSvc).2 = [] := by
  decide

/-- C6 witness: the amended statement applied to the concrete twenty-group
scenario, for the failing group 7 and for the succeeding group 8. -/
theorem c6_witness :
    (dictGet 7 (getAllGroupMembersSort exGroups exSvc).1 = none ∧
     dictGet 7 (getAllGroupMembersUpdates exGroups exSvc).1 = none ∧
     7 ∈ (getAllGroupMembersUpdates exGroups exSvc).2 ∧
     (getAllGroupMembersSort exGroups exSvc).2 = []) ∧
    (dictGet 8 (getAllGroupMembersSort exGroups exSvc).1 = some ((exSvc 8).value) ∧
     dictGet 8 (getAllGroupMembersUpdates exGroups exSvc).1 = some ((exSvc 8).value)) :=
  ⟨(c6_batch_subfailure_skips_group exGroups exSvc (by decide) ⟨7, 7⟩ (by decide)).1
      (by decide),
   (c6_batch_subfailure_skips_group exGroups exSvc (by decide) ⟨8, 8⟩ (by decide)).2
      (by decide)⟩

theorem mem_foldl_dictInsert {γ β σ : Type} [DecidableEq γ] (key : σ → γ) (val : σ → β)
    (l : List σ) :
    ∀ (acc : List (γ × β)) (kv : γ × β),
      kv ∈ l.foldl (fun d s => dictInsert (key s) (val s) d) acc →
      kv ∈ acc ∨ ∃ s ∈ l, kv = (key s, val s) := by
  induction l with
  | nil => intro acc kv h; exact Or.inl h
  | cons s rest ih =>
    intro acc kv h
    rw [List.foldl_cons] at h
    rcases ih _ kv h with h1 | ⟨t, ht, heq⟩
    · rcases mem_dictInsert h1 with h2 | h2
      · exact Or.inr ⟨s, List.mem_cons_self _ _, h2⟩
      · exact Or.inl h2
    · exact Or.inr ⟨t, List.mem_cons_of_mem _ ht, heq⟩

theorem mem_normalizeSnapshotKeys (nfc : Str → Str) (snap : List (Str × List Str))
    (kv : Str × List Str) (h : kv ∈ normalizeSnapshotKeys nfc snap) :
    ∃ e ∈ snap, kv = (cleanText nfc e.1, pySortedSet (e.2.map (cleanText nfc))) := by
  have h2 : kv ∈ snap.foldl
      (fun d (e : Str × List Str) =>
        dictInsert (cleanText nfc e.1) (pySortedSet (e.2.map (cleanText nfc))) d) [] := h
  rcases mem_foldl_dictInsert (fun e : Str × List Str => cleanText nfc e.1)
      (fun e : Str × List Str => pySortedSet (e.2.map (cleanText nfc))) snap [] kv h2
    with h1 | ⟨s, hs, heq⟩
  · cases h1
  · exact ⟨s, hs, heq⟩

theorem critRoster_mem {ι : Type} (nfc : Str → Str) (nameToId : List (Str × ι))
    (fetch : ι → List (List MemberRec)) (l : List Str) :
    ∀ (acc : List (Str × List Str) × List Str) (kv : Str × List Str),
      kv ∈ (l.foldl (fun dw name =>
        match dictGet name nameToId with
        | none => (dw.1, dw.2 ++ [name])
        | some gid =>
            (dictInsert (cleanText nfc name)
              (pySortedSet ((fetchGroupMembers nfc (fetch gid)).map (cleanText nfc))) dw.1,
             dw.2)) acc).1 →
      kv ∈ acc.1 ∨ ∃ name gid, name ∈ l ∧ dictGet name nameToId = some gid ∧
        kv = (cleanText nfc name,
              pySortedSet ((fetchGroupMembers nfc (fetch gid)).map (cleanText nfc))) := by
  induction l with
  | nil => intro acc kv h; exact Or.inl h
  | cons n rest ih =>
    intro acc kv h
    rw [List.foldl_cons] at h
    rcases ih _ kv h with h1 | ⟨name, gid, hn, hg, heq⟩
    · cases hres : dictGet n nameToId with
      | none => simp only [hres] at h1; exact Or.inl h1
      | some gid =>
        simp only [hres] at h1
        rcases mem_dictInsert h1 with h2 | h2
        · exact Or.inr ⟨n, gid, List.mem_cons_self _ _, hres, h2⟩
        · exact Or.inl h2
    · exact Or.inr ⟨name, gid, List.mem_cons_of_mem _ hn, hg, heq⟩

theorem critFold_warn_mono {ι : Type} (nfc : Str → Str) (nameToId : List (Str × ι))
    (fetch : ι → List (List MemberRec)) (l : List Str) :
    ∀ (acc : List (Str × List Str) × List Str) (x : Str), x ∈ acc.2 →
      x ∈ (l.foldl (fun dw name =>
        match dictGet name nameToId with
        | none => (dw.1, dw.2 ++ [name])
        | some gid =>
            (dictInsert (cleanText nfc name)
              (pySortedSet ((fetchGroupMembers nfc (fetch gid)).map (cleanText nfc))) dw.1,
             dw.2)) acc).2 := by
  induction l with
  | nil => intro acc x hx; exact hx
  | cons n rest ih =>
    intro acc x hx
    rw [List.foldl_cons]
    refine ih _ x ?_
    cases hres : dictGet n nameToId with
    | none => simp only [hres]; exact List.mem_append_left _ hx
    | some gid => simp only [hres]; exact hx

theorem critFold_warn_mem {ι : Type} (nfc : Str → Str) (nameToId : List (Str × ι))
    (fetch : ι → List (List MemberRec)) (l : List Str) :
    ∀ (acc : List (Str × List Str) × List Str) (n : Str), n ∈ l →
      dictGet n nameToId = none →
      n ∈ (l.foldl (fun dw name =>
        match dictGet name nameToId with
        | none => (dw.1, dw.2 ++ [name])
        | some gid =>
            (dictInsert (cleanText nfc name)
              (pySortedSet ((fetchGroupMembers nfc (fetch gid)).map (cleanText nfc))) dw.1,
             dw.2)) acc).2 := by
  induction l with
  | nil => intro acc n hn; cases hn
  | cons m rest ih =>
    intro acc n hn hres
    rcases List.mem_cons.mp hn with hn1 | hn1
    · subst hn1
      rw [List.foldl_cons]
      refine critFold_warn_mono nfc nameToId fetch rest _ n ?_
      simp only [hres]
      exact List.mem_append_right _ (List.mem_singleton.mpr rfl)
    · rw [List.foldl_cons]
      exact ih _ n hn1 hres

theorem getGroupIds_entry_resolve {ι : Type} (resolve : Str → Option ι) (names : List Str) :
    ∀ (acc : List (Str × ι) × List Str) (k : Str) (gid : ι),
      (∀ v, (k, v) ∈ acc.1 → resolve k = some v) →
      (k, gid) ∈ (names.foldl (fun dw name =>
        match resolve name with
        | some g2 => (dictInsert name g2 dw.1, dw.2)
        | none => (dw.1, dw.2 ++ [name])) acc).1 →
      resolve k = some gid := by
  induction names with
  | nil => intro acc k gid hinv h; exact hinv gid h
  | cons n rest ih =>
    intro acc k gid hinv h
    rw [List.foldl_cons] at h
    refine ih _ k gid ?_ h
    intro v hv
    cases hres : resolve n with
    | none => simp only [hres] at hv; exact hinv v hv
    | some g2 =>
      simp only [hres] at hv
      rcases mem_dictInsert hv with h2 | h2
      · have hk : k = n := congrArg Prod.fst h2
        have hval : v = g2 := congrArg Prod.snd h2
        rw [hk, hval]
        exact hres
      · exact hinv v h2

theorem getGroupIds_dictGet_resolve {ι : Type} (resolve : Str → Option ι) (names : List Str)
    (k : Str) (gid : ι) (h : dictGet k (getGroupIdsFromNames resolve names).1 = some gid) :
    resolve k = some gid :=
  getGroupIds_entry_resolve resolve names ([], []) k gid (fun v hv => absurd hv (by simp))
    (dictGet_mem h)

theorem getGroupIds_warn_mono {ι : Type} (resolve : Str → Option ι) (names : List Str) :
    ∀ (acc : List (Str × ι) × List Str) (x : Str), x ∈ acc.2 →
      x ∈ (names.foldl (fun dw name =>
        match resolve name with
        | some g2 => (dictInsert name g2 dw.1, dw.2)
        | none => (dw.1, dw.2 ++ [name])) acc).2 := by
  induction names with
  | nil => intro acc x hx; exact hx
  | cons n rest ih =>
    intro acc x hx
    rw [List.foldl_cons]
    refine ih _ x ?_
    cases hres : resolve n with
    | none => simp only [hres]; exact List.mem_append_left _ hx
    | some g2 => simp only [hres]; exact hx

theorem getGroupIds_warn_mem {ι : Type} (resolve : Str → Option ι) (names : List Str) :
    ∀ (acc : List (Str × ι) × List Str) (n : Str), n ∈ names → resolve n = none →
      n ∈ (names.foldl (fun dw name =>
        match resolve name with
        | some g2 => (dictInsert name g2 dw.1, dw.2)
        | none => (dw.1, dw.2 ++ [name])) acc).2 := by
  induction names with
  | nil => intro acc n hn; cases hn
  | cons m rest ih =>
    intro acc n hn hres
    rcases List.mem_cons.mp hn with hn1 | hn1
    · subst hn1
      rw [List.foldl_cons]
      refine getGroupIds_warn_mono resolve rest _ n ?_
      simp only [hres]
      exact List.mem_append_right _ (List.mem_singleton.mpr rfl)
    · rw [List.foldl_cons]
      exact ih _ n hn1 hres

theorem getGroupIds_dictGet_none {ι : Type} (resolve : Str → Option ι) (names : List Str)
    (n : Str) (hres : resolve n = none) :
    dictGet n (getGroupIdsFromNames resolve names).1 = none := by
  cases hd : dictGet n (getGroupIdsFromNames resolve names).1 with
  | none => rfl
  | some gid =>
    have h := getGroupIds_dictGet_resolve resolve names n gid hd
    rw [hres] at h
    cases h

theorem critRoster_dictGet_none {ι : Type} (nfc : Str → Str) (names : List Str)
    (resolve : Str → Option ι) (fetch : ι → List (List MemberRec)) (name : Str)
    (hres : resolve name = none) (hclean : ∀ n ∈ names, cleanText nfc n = n) :
    dictGet name (getAllGroupMembersCrit nfc names resolve fetch).1 = none := by
  cases hd : dictGet name (getAllGroupMembersCrit nfc names resolve fetch).1 with
  | none => rfl
  | some v =>
    have hmem : (name, v) ∈ (getAllGroupMembersCrit nfc names resolve fetch).1 :=
      dictGet_mem hd
    rcases critRoster_mem nfc (getGroupIdsFromNames resolve names).1 fetch names
        (([], []) : List (Str × List Str) × List Str) (name, v) hmem
      with h1 | ⟨n2, gid, hn2, hg2, heq⟩
    · cases h1
    · have hkey : name = cleanText nfc n2 := congrArg Prod.fst heq
      rw [hclean n2 hn2] at hkey
      subst hkey
      have hr := getGroupIds_dictGet_resolve resolve names name gid hg2
      rw [hres] at hr
      cases hr

/-- C7 (amended): in the critical variant, every roster entry maps a
cleaned group name to a lexicographically sorted, duplicate-free list of
members, each member being the twice-cleaned best-available identifier of
some fetched record — where the best-available identifier prefers the
display label and falls back to the stable id only when the label is
absent or empty (the reverse of the claimed preference).  (The counterexample
shows the sort variant stores raw listing display names, with duplicates.) -/
theorem c7_crit_roster_normalized_sorted_sets {ι : Type} (nfc : Str → Str) (names : List Str)
    (resolve : Str → Option ι) (fetch : ι → List (List MemberRec)) (kv : Str × List Str)
    (hkv : kv ∈ (getAllGroupMembersCrit nfc names resolve fetch).1) :
    kv.2.Sorted (· ≤ ·) ∧ kv.2.Nodup ∧
    (∃ name gid, name ∈ names ∧ resolve name = some gid ∧
      kv.1 = cleanText nfc name ∧
      kv.2 = pySortedSet ((fetchGroupMembers nfc (fetch gid)).map (cleanText nfc)) ∧
      ∀ m ∈ kv.2, ∃ page ∈ fetch gid, ∃ r ∈ page,
        m = cleanText nfc (bestName nfc r)) := by
  rcases critRoster_mem nfc (getGroupIdsFromNames resolve names).1 fetch names
      (([], []) : List (Str × List Str) × List Str) kv hkv
    with h1 | ⟨name, gid, hn, hg, heq⟩
  · cases h1
  · have hval : kv.2 = pySortedSet ((fetchGroupMembers nfc (fetch gid)).map (cleanText nfc)) :=
      congrArg Prod.snd heq
    refine ⟨?_, ?_, name, gid, hn, getGroupIds_dictGet_resolve resolve names name gid hg,
      congrArg Prod.fst heq, hval, ?_⟩
    · rw [hval]; exact sorted_pySortedSet _
    · rw [hval]; exact nodup_pySortedSet _
    · intro m hm
      rw [hval, mem_pySortedSet] at hm
      rcases List.mem_map.mp hm with ⟨x, hx, hxm⟩
      unfold fetchGroupMembers at hx
      rcases List.mem_flatten.mp hx with ⟨l2, hl2, hxl2⟩
      rcases List.mem_map.mp hl2 with ⟨page, hpage, hpl⟩
      rw [← hpl] at hxl2
      rcases List.mem_map.mp hxl2 with ⟨r, hr, hrx⟩
      exact ⟨page, hpage, r, hr, by rw [← hxm, ← hrx]⟩

/-- C7 counterexample: the sort variant stores the raw list of display
names of the member records, so two distinct members sharing one display
label yield a roster value with a duplicate — not a duplicate-free set;
and in the critical variant the chosen identifier for a record that has
both a stable id and a display label is the label, not the stable id,
contradicting the claimed preference order. -/
theorem c7_counterexample :
    (getAllGroupMembersSort dupGroups dupSvc).1 = [(['g'], [['a'], ['a']])] ∧
    ¬ ([['a'], ['a']] : List Str).Nodup ∧
    bestName id ⟨some ['u'], some ['A']⟩ = ['A'] ∧
    (['A'] : Str) ≠ ['u'] := by
  decide

/-- C7 witness: the amended statement applied to one resolved group with a
two-record page. -/
theorem c7_witness :
    ([['a'], ['b']] : List Str).Sorted (· ≤ ·) ∧
    ([['a'], ['b']] : List Str).Nodup ∧
    (∃ name gid, name ∈ [(['g'] : Str)] ∧ c7resolve name = some gid ∧
      (['g'] : Str) = cleanText id name ∧
      ([['a'], ['b']] : List Str) =
        pySortedSet ((fetchGroupMembers id (c7fetch gid)).map (cleanText id)) ∧
      ∀ m ∈ ([['a'], ['b']] : List Str), ∃ page ∈ c7fetch gid, ∃ r ∈ page,
        m = cleanText id (bestName id r)) :=
  c7_crit_roster_normalized_sorted_sets id [['g']] c7resolve c7fetch
    (['g'], [['a'], ['b']]) (by decide)

/-- C8 (amended): an input group name with no service-side match is warned
about by the resolver and again by the fetch loop, and it is absent from
the fetched roster; but it is absent from the reconciliation output only
when it is also absent from the previous snapshot — when the previous
snapshot contains the group, compare_snapshots reports it with its whole
previous member list as removed and lists it among deleted_groups. -/
theorem c8_unresolved_group_reported_removed {ι : Type} (nfc : Str → Str) (names : List Str)
    (resolve : Str → Option ι) (fetch : ι → List (List MemberRec))
    (previous : List (Str × List Str)) (name : Str)
    (h1 : name ∈ names) (h2 : resolve name = none)
    (hclean : ∀ n ∈ names, cleanText nfc n = n) :
    name ∈ (getGroupIdsFromNames resolve names).2 ∧
    name ∈ (getAllGroupMembersCrit nfc names resolve fetch).2 ∧
    dictGet name (getAllGroupMembersCrit nfc names resolve fetch).1 = none ∧
    (dictGet name previous = none →
      dictGet name (compareSnapshotsCrit
        (getAllGroupMembersCrit nfc names resolve fetch).1 previous).result = none) ∧
    (∀ pm, dictGet name previous = some pm →
      dictGet name (compareSnapshotsCrit
        (getAllGroupMembersCrit nfc names resolve fetch).1 previous).result =
        some { added := [], removed := pySorted pm, unchanged := [] } ∧
      name ∈ (compareSnapshotsCrit
        (getAllGroupMembersCrit nfc names resolve fetch).1 previous).deletedGroups) := by
  have hnone : dictGet name (getAllGroupMembersCrit nfc names resolve fetch).1 = none :=
    critRoster_dictGet_none nfc names resolve fetch name h2 hclean
  refine ⟨?_, ?_, hnone, ?_, ?_⟩
  · exact getGroupIds_warn_mem resolve names ([], []) name h1 h2
  · exact critFold_warn_mem nfc (getGroupIdsFromNames resolve names).1 fetch names
      ([], []) name h1 (getGroupIds_dictGet_none resolve names name h2)
  · intro hprev
    rw [critResult_dictGet]
    have hk1 : name ∉ dictKeys (getAllGroupMembersCrit nfc names resolve fetch).1 :=
      (dictGet_eq_none_iff _ _).mp hnone
    have hk2 : name ∉ dictKeys previous := (dictGet_eq_none_iff _ _).mp hprev
    rw [if_neg (fun hmem => (mem_allSnapshotKeys.mp hmem).elim hk1 hk2)]
  · intro pm hpm
    have hkeys : name ∈ allSnapshotKeys (getAllGroupMembersCrit nfc names resolve fetch).1
        previous :=
      mem_allSnapshotKeys.mpr (Or.inr (mem_keys_of_dictGet hpm))
    constructor
    · rw [critResult_dictGet, if_pos hkeys, critDelta,
        if_neg (by rw [hpm]; exact fun h => Option.noConfusion h), if_pos hnone,
        getMembers_of_some hpm]
    · have hdel : (compareSnapshotsCrit (getAllGroupMembersCrit nfc names resolve fetch).1
          previous).deletedGroups =
          (allSnapshotKeys (getAllGroupMembersCrit nfc names resolve fetch).1 previous).filter
            (fun g => !(dictGet g previous).isNone &&
              (dictGet g (getAllGroupMembersCrit nfc names resolve fetch).1).isNone) := rfl
      rw [hdel, List.mem_filter]
      refine ⟨hkeys, ?_⟩
      rw [hpm, hnone]
      rfl

/-- C8 counterexample: the single input name g does not resolve, so the
roster is empty; the previous snapshot contains g with member m, and the
reconciliation output then reports g with removed = the previous members
and lists it among deleted_groups — far from absent from the output. -/
theorem c8_counterexample :
    (getAllGroupMembersCrit id [['g']] c8resolve c8fetch).1 = [] ∧
    dictGet ['g'] (compareSnapshotsCrit
      (getAllGroupMembersCrit id [['g']] c8resolve c8fetch).1 c8prev).result =
      some { added := [], removed := [['m']], unchanged := [] } ∧
    ['g'] ∈ (compareSnapshotsCrit
      (getAllGroupMembersCrit id [['g']] c8resolve c8fetch).1 c8prev).deletedGroups := by
  decide

/-- C8 witness: the amended statement applied to the concrete unresolved
name, both for the roster-absence part and the reported-as-removed part. -/
theorem c8_witness :
    ['g'] ∈ (getGroupIdsFromNames c8resolve [['g']]).2 ∧
    dictGet ['g'] (getAllGroupMembersCrit id [['g']] c8resolve c8fetch).1 = none ∧
    dictGet ['g'] (compareSnapshotsCrit
      (getAllGroupMembersCrit id [['g']] c8resolve c8fetch).1 c8prev).result =
      some { added := [], removed := [['m']], unchanged := [] } ∧
    ['g'] ∈ (compareSnapshotsCrit
      (getAllGroupMembersCrit id [['g']] c8resolve c8fetch).1 c8prev).deletedGroups :=
  have h := c8_unresolved_group_reported_removed id [['g']] c8resolve c8fetch c8prev ['g']
    (by decide) rfl (by decide)
  ⟨h.1, h.2.2.1, (h.2.2.2.2 [['m']] (by decide)).1, (h.2.2.2.2 [['m']] (by decide)).2⟩

/-- C9 (amended): the critical-variant loader passes every parsed artifact
through normalize_snapshot_keys, so every key of the returned mapping is
the cleaned form of a stored key and every member the cleaned form of a
stored member, rebuilt as a sorted set; the sort-variant loader, by
contrast, returns the parsed artifact unchanged, applying no
normalization at all. -/
theorem c9_crit_load_normalizes (nfc : Str → Str) (d : List (Str × List Str)) :
    loadPreviousSnapshotCrit nfc (Artifact.valid d) =
      Except.ok (normalizeSnapshotKeys nfc d) ∧
    (∀ kv ∈ normalizeSnapshotKeys nfc d, ∃ e ∈ d,
      kv.1 = cleanText nfc e.1 ∧ kv.2 = pySortedSet (e.2.map (cleanText nfc)) ∧
      ∀ m ∈ kv.2, ∃ m0 ∈ e.2, m = cleanText nfc m0) ∧
    loadPreviousSnapshotSort (Artifact.valid d) = Except.ok d := by
  refine ⟨rfl, ?_, rfl⟩
  intro kv hkv
  rcases mem_normalizeSnapshotKeys nfc d kv hkv with ⟨e, he, heq⟩
  refine ⟨e, he, congrArg Prod.fst heq, congrArg Prod.snd heq, ?_⟩
  intro m hm
  rw [congrArg Prod.snd heq, mem_pySortedSet] at hm
  rcases List.mem_map.mp hm with ⟨m0, hm0, hm0e⟩
  exact ⟨m0, hm0, hm0e.symm⟩

/-- C9 counterexample: a persisted artifact whose key has leading
whitespace is returned verbatim by the sort-variant loader, so the loaded
mapping has a key to which the normalizer has not been applied — cleaning
that key changes it, and the loaded dict differs from its normalized
form. -/
theorem c9_counterexample :
    loadPreviousSnapshotSort (Artifact.valid rawSnap) = Except.ok rawSnap ∧
    cleanText id [' ', 'a'] = ['a'] ∧
    normalizeSnapshotKeys id rawSnap = [(['a'], [])] ∧
    rawSnap ≠ normalizeSnapshotKeys id rawSnap := by
  refine ⟨rfl, ?_, ?_, ?_⟩ <;> decide

/-- C9 witness: the provenance part of the amended statement at the
concrete raw snapshot. -/
theorem c9_witness :
    ∃ e ∈ rawSnap, (['a'] : Str) = cleanText id e.1 ∧
      ([] : List Str) = pySortedSet (e.2.map (cleanText id)) ∧
      ∀ m ∈ ([] : List Str), ∃ m0 ∈ e.2, m = cleanText id m0 :=
  (c9_crit_load_normalizes id rawSnap).2.1 (['a'], []) (by decide)

/-- C10: every member list in the output of normalize_snapshot_keys — and
therefore in every snapshot the critical variant loads from a parsed
artifact and in every snapshot content it saves — is lexicographically
sorted and duplicate-free, because the values are rebuilt as sorted sets
of cleaned member strings on both load and save. -/
theorem c10_crit_snapshot_values_sorted_dedup (nfc : Str → Str)
    (data : List (Str × List Str)) :
    (∀ kv ∈ normalizeSnapshotKeys nfc data, kv.2.Sorted (· ≤ ·) ∧ kv.2.Nodup) ∧
    (∀ r, loadPreviousSnapshotCrit nfc (Artifact.valid data) = Except.ok r →
      ∀ kv ∈ r, kv.2.Sorted (· ≤ ·) ∧ kv.2.Nodup) ∧
    (∀ w, saveCurrentSnapshotCrit nfc data = Artifact.valid w →
      ∀ kv ∈ w, kv.2.Sorted (· ≤ ·) ∧ kv.2.Nodup) := by
  have hbase : ∀ kv ∈ normalizeSnapshotKeys nfc data, kv.2.Sorted (· ≤ ·) ∧ kv.2.Nodup := by
    intro kv hkv
    rcases mem_normalizeSnapshotKeys nfc data kv hkv with ⟨e, he, heq⟩
    rw [congrArg Prod.snd heq]
    exact ⟨sorted_pySortedSet _, nodup_pySortedSet _⟩
  refine ⟨hbase, ?_, ?_⟩
  · intro r hr
    have h2 : Except.ok (normalizeSnapshotKeys nfc data) =
        (Except.ok r : Except PyErr (List (Str × List Str))) := hr
    have h3 : normalizeSnapshotKeys nfc data = r := by injection h2
    rw [← h3]
    exact hbase
  · intro w hw
    have h2 : Artifact.valid (normalizeSnapshotKeys nfc data) = Artifact.valid w := hw
    have h3 : normalizeSnapshotKeys nfc data = w := by injection h2
    rw [← h3]
    exact hbase

/-- C10 witness: a member list with a duplicate is rebuilt as the sorted
duplicate-free set. -/
theorem c10_witness :
    (([['b']] : List Str).Sorted (· ≤ ·)) ∧ ([['b']] : List Str).Nodup :=
  (c10_crit_snapshot_values_sorted_dedup id [(['a'], [['b'], ['b']])]).1
    (['a'], [['b']]) (by decide)

end GroupsAudit
